import Mathlib

/-!
Verification of the text-analysis pipeline of `word_flow_text_analyzer`
(`src/parser/lib/text_parser.py` and `src/parser/lib/base_analysis_view.py`).

Strings are modelled as `List Char`.  Python functions become Lean
definitions of the same name; each definition's doc comment names the
source function it embeds.
-/

namespace WordFlow

/-! ### Character classes

Python's `str.split()` / `str.strip()` whitespace and the `re` classes
`\w`, `\d` and the letter class `[a-zA-ZÀ-ſ]` used by
`TextParser.extract_words`.  The classification is modelled over the
character ranges the source patterns reference (ASCII, Latin-1
Supplement and Latin Extended-A). -/

/-- Python `str.isspace` over ASCII and Latin-1 (space, `\t`, `\n`, `\v`,
`\f`, `\r`, file/group/record/unit separators, NEL, NBSP). -/
def isSpaceCh (c : Char) : Bool :=
  c == ' ' || (0x09 ≤ c.toNat && c.toNat ≤ 0x0D) ||
    (0x1C ≤ c.toNat && c.toNat ≤ 0x1F) || c.toNat == 0x85 || c.toNat == 0xA0

/-- The sentence-delimiter class `[.!?]` of
`TextParser._extract_sentences_fallback`. -/
def isSentDelim (c : Char) : Bool :=
  c == '.' || c == '!' || c == '?'

/-- The letter class `[a-zA-ZÀ-ſ]` used by every pattern of
`TextParser.extract_words`. -/
def isLetterCh (c : Char) : Bool :=
  ('a' ≤ c && c ≤ 'z') || ('A' ≤ c && c ≤ 'Z') ||
    (0xC0 ≤ c.toNat && c.toNat ≤ 0x17F)

/-- The digit class `\d` (ASCII digits; the analysed inputs contain no
other Unicode decimal digits). -/
def isDigitCh (c : Char) : Bool :=
  c.isDigit

/-- The class `[a-zA-ZÀ-ſ\d]` of patterns 4 and 5. -/
def isAlnumCh (c : Char) : Bool :=
  isLetterCh c || isDigitCh c

/-- Python `re`'s word class `\w` (letters, digits, underscore) over the
modelled ranges; `×` (U+00D7) and `÷` (U+00F7) are not word characters. -/
def isWordCh (c : Char) : Bool :=
  c.isAlphanum || c == '_' ||
    (0xC0 ≤ c.toNat && c.toNat ≤ 0x17F && c.toNat != 0xD7 && c.toNat != 0xF7)

/-- Python `str.lower` on the ASCII and Latin-1 letter ranges (the
Latin Extended-A case pairs are outside the modelled range and are kept
fixed). -/
def toLowerCh (c : Char) : Char :=
  if 'A' ≤ c && c ≤ 'Z' then Char.ofNat (c.toNat + 0x20)
  else if 0xC0 ≤ c.toNat && c.toNat ≤ 0xDE && c.toNat != 0xD7 then
    Char.ofNat (c.toNat + 0x20)
  else c

/-! ### Python `str.strip` and whitespace split -/

/-- Python `str.strip()`: drop leading and trailing whitespace. -/
def pyStrip (s : List Char) : List Char :=
  List.rdropWhile isSpaceCh (List.dropWhile isSpaceCh s)

/-- Python `str.split()` with no argument: the maximal runs of
non-whitespace characters, in order (no empty pieces). -/
def pySplitWs : List Char → List (List Char)
  | [] => []
  | [c] => if isSpaceCh c then [] else [[c]]
  | c :: c2 :: cs =>
    if isSpaceCh c then pySplitWs (c2 :: cs)
    else if isSpaceCh c2 then [c] :: pySplitWs (c2 :: cs)
    else (pySplitWs (c2 :: cs)).modifyHead (c :: ·)

/-- Python `' '.join(pieces)`. -/
def joinSpace : List (List Char) → List Char
  | [] => []
  | [p] => p
  | p :: ps => p ++ ' ' :: joinSpace ps

/-- Embedding of `TextParser.clean_text`: `' '.join(text.split())`, with the
`if not text` short-circuit. -/
def clean_text (text : List Char) : List Char :=
  if text = [] then [] else joinSpace (pySplitWs text)

/-! ### Sentence extraction (fallback path)

`TextParser.extract_sentences` with `use_nltk = False`.  The primary
NLTK tokenizer is an external dependency (not part of this repository),
so the model takes the deterministic regex fallback path. -/

/-- Model of `re.split(r'[.!?]+', text)`: split on maximal runs of sentence
delimiters, keeping empty pieces at the ends and between
non-adjacent delimiter runs (exactly as `re.split` does). -/
def splitDelimRuns : List Char → List (List Char)
  | [] => [[]]
  | [c] => if isSentDelim c then [[], []] else [[c]]
  | c :: c2 :: cs =>
    if isSentDelim c then
      if isSentDelim c2 then splitDelimRuns (c2 :: cs)
      else [] :: splitDelimRuns (c2 :: cs)
    else (splitDelimRuns (c2 :: cs)).modifyHead (c :: ·)

/-- Embedding of `TextParser.extract_sentences` (fallback path): split, then
`[s.strip() for s in sentences if s.strip()]`. -/
def extract_sentences (text : List Char) : List (List Char) :=
  if text = [] then []
  else ((splitDelimRuns text).map pyStrip).filter (· ≠ [])

/-! ### The regex matcher for `extract_words`

A backtracking matcher for the regex fragment the five patterns of
`TextParser.extract_words` use: single-character classes, literal
characters, the word boundary `\b`, and greedy `+` / `*` over groups.
`mrun` returns every way a pattern list can match a prefix of the
input, in the backtracking priority order of Python's `re` engine
(greedy repetition first); `reFindAll` is `re.findall`: scan left to
right, take the first (highest-priority) match at each position, and
continue after it.  Every repetition body below consumes at least one
character, so the empty-iteration guard of the `re` engine never
triggers.  The fuel arguments only bound the recursion (one unit per
matcher step); they are generous enough never to run out on the
patterns below, whose repetition bodies always consume characters. -/

inductive RE where
  | one : (Char → Bool) → RE
  | lit : Char → RE
  | bnd : RE
  | star : List RE → RE

/-- Word-character test for `\b`, with "outside the string" counting as
a non-word position. -/
def isWordOpt : Option Char → Bool
  | none => false
  | some c => isWordCh c

/-- All matches of a pattern list against a prefix of `s`, as
`(consumed length, last consumed character, rest)`, in backtracking
priority order.  `prev` is the character just before the current
position (for `\b`). -/
def mrun : Nat → List RE → Option Char → List Char → List (Nat × Option Char × List Char)
  | 0, _, _, _ => []
  | _ + 1, [], prev, s => [(0, prev, s)]
  | _ + 1, .one _ :: _, _, [] => []
  | fuel + 1, .one p :: es, _, c :: rest =>
    if p c then (mrun fuel es (some c) rest).map (fun r => (r.1 + 1, r.2)) else []
  | _ + 1, .lit _ :: _, _, [] => []
  | fuel + 1, .lit c0 :: es, _, c :: rest =>
    if c = c0 then (mrun fuel es (some c) rest).map (fun r => (r.1 + 1, r.2)) else []
  | fuel + 1, .bnd :: es, prev, s =>
    if isWordOpt prev != isWordOpt s.head? then mrun fuel es prev s else []
  | fuel + 1, .star g :: es, prev, s =>
    mrun fuel (g ++ .star g :: es) prev s ++ mrun fuel es prev s

/-- The `re.findall` scan: at each position try the pattern; emit the
first match and continue after it, otherwise advance one character. -/
def reFindAllAux (re : List RE) : Nat → Option Char → List Char → List (List Char)
  | 0, _, _ => []
  | _ + 1, _, [] => []
  | fuel + 1, prev, c :: rest =>
    match (mrun (16 * (c :: rest).length + 64) re prev (c :: rest)).head? with
    | some (n, p2, s2) =>
      if n = 0 then reFindAllAux re fuel (some c) rest
      else (c :: rest).take n :: reFindAllAux re fuel p2 s2
    | none => reFindAllAux re fuel (some c) rest

/-- Model of `re.findall(pattern, s)` for the supported fragment. -/
def reFindAll (re : List RE) (s : List Char) : List (List Char) :=
  reFindAllAux re (s.length + 1) none s

/-- The group `(?: g )+` encoded as `g (?: g )*`. -/
def plusSeq (g : List RE) : List RE := g ++ [RE.star g]

/-- The subpattern `[a-zA-ZÀ-ſ]+`. -/
def letterPlus : List RE := plusSeq [RE.one isLetterCh]

/-- The subpattern `\d+`. -/
def digitPlus : List RE := plusSeq [RE.one isDigitCh]

/-- The subpattern `[a-zA-ZÀ-ſ\d]+`. -/
def alnumPlus : List RE := plusSeq [RE.one isAlnumCh]

/-- Pattern 1, `r'\b[a-zA-ZÀ-ſ]+\b'`. -/
def pat1 : List RE := RE.bnd :: letterPlus ++ [RE.bnd]

/-- Pattern 2 as it is actually compiled.  The source line is

`pattern2 = r'\b[a-zA-ZÀ-ſ]+''[a-zA-ZÀ-ſ]+\b'`

which is the implicit concatenation of TWO Python string literals (there
is no apostrophe inside either literal).  The second literal is not a
raw string, so its trailing `\b` is the literal backspace character
U+0008, not a word boundary.  The compiled regex is therefore
`\b[a-zA-ZÀ-ſ]+[a-zA-ZÀ-ſ]+\x08`. -/
def pat2 : List RE := RE.bnd :: letterPlus ++ letterPlus ++ [RE.lit '\x08']

/-- Pattern 3, `r'\b[a-zA-ZÀ-ſ]+(?:-[a-zA-ZÀ-ſ]+)+\b'`. -/
def pat3 : List RE :=
  RE.bnd :: letterPlus ++ plusSeq (RE.lit '-' :: letterPlus) ++ [RE.bnd]

/-- Pattern 4, `r'\b[a-zA-ZÀ-ſ]+\d+(?:-[a-zA-ZÀ-ſ\d]+)*\b'`. -/
def pat4 : List RE :=
  RE.bnd :: letterPlus ++ digitPlus ++ [RE.star (RE.lit '-' :: alnumPlus)] ++ [RE.bnd]

/-- Pattern 5, `r'\b\d+[a-zA-ZÀ-ſ]+(?:-[a-zA-ZÀ-ſ\d]+)*\b'`. -/
def pat5 : List RE :=
  RE.bnd :: digitPlus ++ letterPlus ++ [RE.star (RE.lit '-' :: alnumPlus)] ++ [RE.bnd]

/-- Embedding of `TextParser.extract_words`: run the five patterns over the same
text, concatenate all matches, lowercase, and filter by `min_length`
only when `min_length > 1`. -/
def extract_words (text : List Char) (min_length : Nat := 1) : List (List Char) :=
  if text = [] then []
  else
    let ws := reFindAll pat1 text ++ reFindAll pat2 text ++ reFindAll pat3 text ++
      reFindAll pat4 text ++ reFindAll pat5 text
    let lws := ws.map (fun w => w.map toLowerCh)
    if 1 < min_length then lws.filter (fun w => min_length ≤ w.length) else lws

/-! ### Word counting (`TextParser.calculate_word_counts`)

`Counter(words)` maps each distinct word to its number of occurrences;
`sorted(word_counts.items())` sorts the pairs lexicographically, which
for distinct keys is exactly ascending code-point order on the words.
The set of distinct words is modelled by `List.dedup` (the iteration
order of the `Counter` is irrelevant, since the pairs are sorted). -/

/-- Strict lexicographic code-point order on strings (Python `<` on
`str`, restricted to what `sorted` needs for distinct keys). -/
def strLt : List Char → List Char → Bool
  | [], [] => false
  | [], _ :: _ => true
  | _ :: _, [] => false
  | a :: as, b :: bs => if a < b then true else if b < a then false else strLt as bs

/-- The reflexive closure of `strLt`, used as the sorting relation. -/
def strLeP (a b : List Char) : Prop := strLt a b = true ∨ a = b

instance : DecidableRel strLeP := fun a b =>
  inferInstanceAs (Decidable (strLt a b = true ∨ a = b))

/-- Embedding of `TextParser.calculate_word_counts`: empty list for no words,
otherwise the distinct words sorted ascending, each with its
occurrence count. -/
def calculate_word_counts (words : List (List Char)) : List (List Char × Nat) :=
  if words = [] then []
  else (List.insertionSort strLeP words.dedup).map
    (fun w => (w, @List.count (List Char) instBEqOfDecidableEq w words))

/-! ### The analysis result and orchestrator -/

/-- The `TextAnalysisResult` dataclass of `text_parser.py`. -/
structure TextAnalysisResult where
  sentences : List (List Char)
  unique_words : List (List Char × Nat)
  total_words : Nat
  total_unique_words : Nat
  total_sentences : Nat
deriving DecidableEq

/-- Embedding of `TextParser.analyze_text`. -/
def analyze_text (text : List Char) (min_word_length : Nat := 1) : TextAnalysisResult :=
  if text = [] then ⟨[], [], 0, 0, 0⟩
  else
    let cleaned := clean_text text
    let sentences := extract_sentences cleaned
    let words := extract_words cleaned min_word_length
    let uw := calculate_word_counts words
    ⟨sentences, uw, words.length, uw.length, sentences.length⟩

/-- The three integer counts of the dictionary returned by
`TextParser.get_text_statistics`.  The two floating-point averages of
the source dictionary are outside the model. -/
structure TextStatistics where
  total_words : Nat
  total_unique_words : Nat
  total_sentences : Nat
deriving DecidableEq

/-- Embedding of `TextParser.get_text_statistics` (the three counts):
`len(words)`, `len(set(words))` — the number of distinct words,
modelled as `words.dedup.length` — and `len(sentences)`. -/
def get_text_statistics (text : List Char) (min_word_length : Nat := 1) : TextStatistics :=
  if text = [] then ⟨0, 0, 0⟩
  else
    let cleaned := clean_text text
    let sentences := extract_sentences cleaned
    let words := extract_words cleaned min_word_length
    ⟨words.length, words.dedup.length, sentences.length⟩

/-! ### Title extraction (`BaseAnalysisView.extract_title`) -/

/-- The EPUB metadata object: `file_info.title`, where `none` models a
missing `title` attribute. -/
structure FileInfo where
  title : Option (List Char)

/-- The source guard
`file_info and hasattr(file_info, 'title') and file_info.title`:
a supplied metadata object with a truthy (non-empty) title. -/
def fileInfoTitle : Option FileInfo → Option (List Char)
  | some fi =>
    match fi.title with
    | some t => if t = [] then none else some t
    | none => none
  | none => none

/-- The truncation step `title[:97] + "..." if len(title) > 100`. -/
def truncate100 (t : List Char) : List Char :=
  if 100 < t.length then t.take 97 ++ "...".toList else t

/-- The scan `for sentence in sentences: if sentence and
len(sentence.strip()) > 10: ...` — the first sentence whose stripped
length exceeds 10. -/
def firstLongSentence (sentences : List (List Char)) : Option (List Char) :=
  sentences.find? (fun s => !s.isEmpty && 10 < (pyStrip s).length)

/-- Index of the last occurrence of `c`, or `none` (Python `str.rfind`
up to the missing-value convention). -/
def lastIdxOf (c : Char) (l : List Char) : Option Nat :=
  match l.reverse.findIdx? (· == c) with
  | none => none
  | some i => some (l.length - 1 - i)

/-- Model of `os.path.splitext(p)[0]` (POSIX rules): cut at the last dot, unless
that dot lies before the basename or the basename consists only of
dots up to it (leading dots never start an extension). -/
def splitextRoot (p : List Char) : List Char :=
  let sepIdx : Nat :=
    match lastIdxOf '/' p with
    | none => 0
    | some i => i + 1
  match lastIdxOf '.' p with
  | none => p
  | some d =>
    if d < sepIdx then p
    else if ((p.drop sepIdx).take (d - sepIdx)).any (fun c => c != '.') then p.take d
    else p

/-- Embedding of `BaseAnalysisView.extract_title`. -/
def extract_title (text : List Char) (endpoint_type : List Char)
    (sentences : List (List Char)) (file_info : Option FileInfo)
    (filename : List Char) (custom_title : List Char) : List Char :=
  if text = [] then "Untitled".toList
  else
    match (if endpoint_type = "epub".toList then fileInfoTitle file_info else none) with
    | some t => t
    | none =>
      if endpoint_type = "text".toList then
        if custom_title ≠ [] ∧ pyStrip custom_title ≠ [] then pyStrip custom_title
        else
          match sentences with
          | s0 :: _ => truncate100 (pyStrip s0)
          | [] => "Untitled".toList
      else if endpoint_type = "subtitle".toList then
        if filename ≠ [] then splitextRoot filename
        else
          match firstLongSentence sentences with
          | some s => truncate100 (pyStrip s)
          | none => "Untitled Subtitle".toList
      else if endpoint_type = "epub".toList then
        match firstLongSentence sentences with
        | some s => truncate100 (pyStrip s)
        | none => "Untitled Book".toList
      else "Untitled".toList

/-! ### Order theory for `strLt` -/

theorem strLt_irrefl : ∀ a : List Char, strLt a a = false
  | [] => rfl
  | _ :: as => by simp [strLt, strLt_irrefl as]

theorem strLt_trans : ∀ a b c : List Char,
    strLt a b = true → strLt b c = true → strLt a c = true := by
  intro a
  induction a with
  | nil =>
    intro b c h1 h2
    cases b with
    | nil => simp [strLt] at h1
    | cons b bs =>
      cases c with
      | nil => simp [strLt] at h2
      | cons c cs => rfl
  | cons a as ih =>
    intro b c h1 h2
    cases b with
    | nil => simp [strLt] at h1
    | cons b bs =>
      cases c with
      | nil => simp [strLt] at h2
      | cons c cs =>
        simp only [strLt] at h1 h2 ⊢
        rcases lt_trichotomy a b with hab | hab | hab
        · rcases lt_trichotomy b c with hbc | hbc | hbc
          · simp [lt_trans hab hbc]
          · subst hbc; simp [hab]
          · rw [if_neg (lt_asymm hbc), if_pos hbc] at h2
            cases h2
        · subst hab
          rw [if_neg (lt_irrefl a), if_neg (lt_irrefl a)] at h1
          rcases lt_trichotomy a c with hac | hac | hac
          · simp [hac]
          · subst hac
            rw [if_neg (lt_irrefl a), if_neg (lt_irrefl a)] at h2 ⊢
            exact ih bs cs h1 h2
          · rw [if_neg (lt_asymm hac), if_pos hac] at h2
            cases h2
        · rw [if_neg (lt_asymm hab), if_pos hab] at h1
          cases h1

theorem strLt_total : ∀ a b : List Char, strLt a b = true ∨ a = b ∨ strLt b a = true
  | [], [] => Or.inr (Or.inl rfl)
  | [], _ :: _ => Or.inl rfl
  | _ :: _, [] => Or.inr (Or.inr rfl)
  | a :: as, b :: bs => by
    rcases lt_trichotomy a b with hab | hab | hab
    · exact Or.inl (by simp [strLt, hab])
    · subst hab
      rcases strLt_total as bs with h | h | h
      · exact Or.inl (by simp [strLt, h])
      · exact Or.inr (Or.inl (by rw [h]))
      · exact Or.inr (Or.inr (by simp [strLt, h]))
    · exact Or.inr (Or.inr (by simp [strLt, hab]))

theorem strLt_ne {a b : List Char} (h : strLt a b = true) : a ≠ b := by
  rintro rfl
  rw [strLt_irrefl] at h
  cases h

instance : IsTotal (List Char) strLeP :=
  ⟨fun a b => by
    rcases strLt_total a b with h | h | h
    · exact Or.inl (Or.inl h)
    · exact Or.inl (Or.inr h)
    · exact Or.inr (Or.inl h)⟩

instance : IsTrans (List Char) strLeP :=
  ⟨fun a b c hab hbc => by
    rcases hab with hab | rfl
    · rcases hbc with hbc | rfl
      · exact Or.inl (strLt_trans a b c hab hbc)
      · exact Or.inl hab
    · exact hbc⟩

/-! ### Lemmas about `calculate_word_counts` -/

/-- The usage counts of `calculate_word_counts` sum to the token count. -/
theorem cwc_sum (ws : List (List Char)) :
    ((calculate_word_counts ws).map Prod.snd).sum = ws.length := by
  by_cases h : ws = []
  · subst h; rfl
  · have hmap : (calculate_word_counts ws).map Prod.snd =
        (List.insertionSort strLeP ws.dedup).map
          (fun w => @List.count (List Char) instBEqOfDecidableEq w ws) := by
      rw [calculate_word_counts, if_neg h, List.map_map]
      rfl
    rw [hmap,
      ((List.perm_insertionSort strLeP ws.dedup).map
        (fun w => @List.count (List Char) instBEqOfDecidableEq w ws)).sum_eq,
      List.sum_map_count_dedup_eq_length]

/-- The output of `calculate_word_counts` has one entry per distinct token. -/
theorem cwc_length (ws : List (List Char)) :
    (calculate_word_counts ws).length = ws.dedup.length := by
  by_cases h : ws = []
  · subst h; rfl
  · rw [calculate_word_counts, if_neg h, List.length_map,
      (List.perm_insertionSort strLeP ws.dedup).length_eq]

/-! ### Lemmas about `pyStrip` -/

/-- The head of a `dropWhile` result fails the predicate. -/
theorem dropWhile_head_false {α} (p : α → Bool) :
    ∀ (s : List α) {c : α} {t : List α}, List.dropWhile p s = c :: t → p c = false := by
  intro s
  induction s with
  | nil => intro c t h; cases h
  | cons a s ih =>
    intro c t h
    rw [List.dropWhile_cons] at h
    by_cases hpa : p a = true
    · rw [if_pos hpa] at h
      exact ih h
    · rw [if_neg hpa] at h
      cases h
      simpa using hpa

/-- Stripping only removes characters: the result is a sublist. -/
theorem pyStrip_sublist (s : List Char) : List.Sublist (pyStrip s) s :=
  (List.Sublist.trans ( List.rdropWhile_prefix _ _).sublist) (List.dropWhile_sublist _)

/-- Stripping is idempotent. -/
theorem pyStrip_idem (s : List Char) : pyStrip (pyStrip s) = pyStrip s := by
  unfold pyStrip
  have hdrop : List.dropWhile isSpaceCh
      (List.rdropWhile isSpaceCh (List.dropWhile isSpaceCh s)) =
      List.rdropWhile isSpaceCh (List.dropWhile isSpaceCh s) := by
    obtain ⟨u, hu⟩ := List.rdropWhile_prefix isSpaceCh (List.dropWhile isSpaceCh s)
    cases hb : List.rdropWhile isSpaceCh (List.dropWhile isSpaceCh s) with
    | nil => rfl
    | cons c bs =>
      rw [hb] at hu
      have hds : List.dropWhile isSpaceCh s = c :: (bs ++ u) := by
        rw [← hu]; rfl
      have hc : isSpaceCh c = false := dropWhile_head_false isSpaceCh s hds
      rw [List.dropWhile_cons]
      simp [hc]
  rw [hdrop, List.rdropWhile_idempotent]

/-! ### Lemmas about `pySplitWs` and `joinSpace` -/

/-- A non-whitespace character prepended to a whitespace-free word
forms a non-empty whitespace-free word. -/
theorem cons_word_free {c : Char} {q : List Char} (hc : ¬isSpaceCh c = true)
    (hq : ∀ x ∈ q, isSpaceCh x = false) :
    c :: q ≠ [] ∧ ∀ x ∈ c :: q, isSpaceCh x = false := by
  refine ⟨by simp, ?_⟩
  intro x hx
  rcases List.mem_cons.mp hx with heq | hmem
  · subst heq; simpa using hc
  · exact hq x hmem

/-- Dropping a leading space does not change the whitespace split. -/
theorem pySplitWs_space_cons (s : List Char) :
    pySplitWs (' ' :: s) = pySplitWs s := by
  cases s with
  | nil => decide
  | cons d ds =>
    show (if isSpaceCh ' ' = true then pySplitWs (d :: ds)
      else if isSpaceCh d = true then [' '] :: pySplitWs (d :: ds)
      else (pySplitWs (d :: ds)).modifyHead (' ' :: ·)) = pySplitWs (d :: ds)
    rw [if_pos (show isSpaceCh ' ' = true by decide)]

/-- Every piece produced by `pySplitWs` is a non-empty run of
non-whitespace characters. -/
theorem pySplitWs_sound : ∀ t : List Char, ∀ p ∈ pySplitWs t,
    p ≠ [] ∧ ∀ c ∈ p, isSpaceCh c = false := by
  intro t
  induction t with
  | nil => intro p hp; cases hp
  | cons c t ih =>
    cases t with
    | nil =>
      intro p hp
      by_cases hc : isSpaceCh c = true
      · simp [pySplitWs, hc] at hp
      · rw [pySplitWs, if_neg hc] at hp
        have heq := List.mem_singleton.mp hp
        subst heq
        exact cons_word_free hc (by intro x hx; cases hx)
    | cons c2 cs =>
      intro p hp
      by_cases hc : isSpaceCh c = true
      · rw [pySplitWs, if_pos hc] at hp
        exact ih p hp
      · by_cases hc2 : isSpaceCh c2 = true
        · rw [pySplitWs, if_neg hc, if_pos hc2] at hp
          rcases List.mem_cons.mp hp with heq | hmem
          · subst heq
            exact cons_word_free hc (by intro x hx; cases hx)
          · exact ih p hmem
        · rw [pySplitWs, if_neg hc, if_neg hc2] at hp
          cases hq : pySplitWs (c2 :: cs) with
          | nil => rw [hq] at hp; cases hp
          | cons q qs =>
            rw [hq, List.modifyHead] at hp
            rcases List.mem_cons.mp hp with heq | hmem
            · subst heq
              have hqs := ih q (by rw [hq]; exact List.mem_cons_self q qs)
              exact cons_word_free hc hqs.2
            · exact ih p (by rw [hq]; exact List.mem_cons_of_mem q hmem)

/-- Splitting the space-joined pieces recovers the pieces, provided each
piece is non-empty and whitespace-free. -/
theorem pySplitWs_joinSpace : ∀ ps : List (List Char),
    (∀ p ∈ ps, p ≠ [] ∧ ∀ c ∈ p, isSpaceCh c = false) →
    pySplitWs (joinSpace ps) = ps := by
  have hword : ∀ p : List Char, p ≠ [] → (∀ c ∈ p, isSpaceCh c = false) →
      pySplitWs p = [p] := by
    intro p
    induction p with
    | nil => intro h _; cases h rfl
    | cons c p ih =>
      intro _ hfree
      have hc : ¬(isSpaceCh c = true) := by
        simp [hfree c (List.mem_cons_self c p)]
      cases p with
      | nil => rw [pySplitWs, if_neg hc]
      | cons c2 cs =>
        have hc2 : ¬(isSpaceCh c2 = true) := by
          simp [hfree c2 (List.mem_cons_of_mem c (List.mem_cons_self c2 cs))]
        rw [pySplitWs, if_neg hc, if_neg hc2,
          ih (by simp) (fun x hx => hfree x (List.mem_cons_of_mem c hx))]
        rfl
  have hstep : ∀ (p : List Char) (s : List Char), p ≠ [] →
      (∀ c ∈ p, isSpaceCh c = false) →
      pySplitWs (p ++ ' ' :: s) = p :: pySplitWs s := by
    intro p
    induction p with
    | nil => intro s h _; cases h rfl
    | cons c p ih =>
      intro s _ hfree
      have hc : ¬(isSpaceCh c = true) := by
        simp [hfree c (List.mem_cons_self c p)]
      cases p with
      | nil =>
        rw [List.cons_append, List.nil_append, pySplitWs,
          if_neg hc, if_pos (show isSpaceCh ' ' = true by decide),
          pySplitWs_space_cons]
      | cons c2 cs =>
        have hc2 : ¬(isSpaceCh c2 = true) := by
          simp [hfree c2 (List.mem_cons_of_mem c (List.mem_cons_self c2 cs))]
        rw [List.cons_append, List.cons_append, pySplitWs, if_neg hc, if_neg hc2,
          ← List.cons_append,
          ih s (by simp) (fun x hx => hfree x (List.mem_cons_of_mem c hx))]
        rfl
  intro ps
  induction ps with
  | nil => intro _; rfl
  | cons p ps ih =>
    intro hall
    have hp := hall p (List.mem_cons_self p ps)
    cases ps with
    | nil => exact hword p hp.1 hp.2
    | cons q qs =>
      have hjoin : joinSpace (p :: q :: qs) = p ++ ' ' :: joinSpace (q :: qs) := rfl
      rw [hjoin, hstep p (joinSpace (q :: qs)) hp.1 hp.2,
        ih (fun x hx => hall x (List.mem_cons_of_mem p hx))]

/-! ### Lemmas about `splitDelimRuns` -/

/-- No piece produced by `splitDelimRuns` contains a sentence
delimiter (the delimiters are discarded). -/
theorem splitDelimRuns_no_delim : ∀ t : List Char, ∀ p ∈ splitDelimRuns t,
    ∀ c ∈ p, isSentDelim c = false := by
  intro t
  induction t with
  | nil =>
    intro p hp c hc
    have heq := List.mem_singleton.mp hp
    subst heq
    cases hc
  | cons a t ih =>
    cases t with
    | nil =>
      intro p hp c hc
      by_cases ha : isSentDelim a = true
      · rw [splitDelimRuns, if_pos ha] at hp
        rcases List.mem_cons.mp hp with heq | hmem
        · subst heq; cases hc
        · have heq := List.mem_singleton.mp hmem
          subst heq; cases hc
      · rw [splitDelimRuns, if_neg ha] at hp
        have heq := List.mem_singleton.mp hp
        subst heq
        rcases List.mem_cons.mp hc with heq | hmem
        · subst heq; simpa using ha
        · cases hmem
    | cons a2 t2 =>
      intro p hp c hc
      by_cases ha : isSentDelim a = true
      · by_cases ha2 : isSentDelim a2 = true
        · rw [splitDelimRuns, if_pos ha, if_pos ha2] at hp
          exact ih p hp c hc
        · rw [splitDelimRuns, if_pos ha, if_neg ha2] at hp
          rcases List.mem_cons.mp hp with heq | hmem
          · subst heq; cases hc
          · exact ih p hmem c hc
      · rw [splitDelimRuns, if_neg ha] at hp
        cases hq : splitDelimRuns (a2 :: t2) with
        | nil => rw [hq] at hp; cases hp
        | cons q qs =>
          rw [hq, List.modifyHead] at hp
          rcases List.mem_cons.mp hp with heq | hmem
          · subst heq
            rcases List.mem_cons.mp hc with heq | hmem2
            · subst heq; simpa using ha
            · exact ih q (by rw [hq]; exact List.mem_cons_self q qs) c hmem2
          · exact ih p (by rw [hq]; exact List.mem_cons_of_mem q hmem) c hc

/-! ## The claims -/

/-- Claim C1 (refuted by the code, confirming the docstring/spec intent is
violated): `extract_words` does NOT return contraction tokens.  The
compiled second pattern contains no apostrophe — the source line is an
implicit concatenation of two string literals, and its trailing `\b`
lives in a non-raw literal, i.e. is a literal backspace — so
`extract("it's", 1)` is `["it", "s"]` and `extract("don't", 1)` is
`["don", "t"]`; the tokens `"it's"` and `"don't"` are never produced. -/
theorem extract_words_apostrophe_bug :
    extract_words ("it's".toList) 1 = ["it".toList, "s".toList] ∧
    ("it's".toList) ∉ extract_words ("it's".toList) 1 ∧
    extract_words ("don't".toList) 1 = ["don".toList, "t".toList] ∧
    ("don't".toList) ∉ extract_words ("don't".toList) 1 := by
  refine ⟨by decide, by decide, by decide, by decide⟩

/-- Claim C2: analysing `"This is a test. It has many words."` with
`min_word_length = 1` yields the eight unit-count word pairs,
`total_words = 8` and `total_sentences = 2`. -/
theorem analyze_text_scenario_counts :
    (("words".toList, 1) ∈
        (analyze_text ("This is a test. It has many words.".toList) 1).unique_words ∧
      ("this".toList, 1) ∈
        (analyze_text ("This is a test. It has many words.".toList) 1).unique_words ∧
      ("is".toList, 1) ∈
        (analyze_text ("This is a test. It has many words.".toList) 1).unique_words ∧
      ("a".toList, 1) ∈
        (analyze_text ("This is a test. It has many words.".toList) 1).unique_words ∧
      ("test".toList, 1) ∈
        (analyze_text ("This is a test. It has many words.".toList) 1).unique_words ∧
      ("it".toList, 1) ∈
        (analyze_text ("This is a test. It has many words.".toList) 1).unique_words ∧
      ("has".toList, 1) ∈
        (analyze_text ("This is a test. It has many words.".toList) 1).unique_words ∧
      ("many".toList, 1) ∈
        (analyze_text ("This is a test. It has many words.".toList) 1).unique_words) ∧
    (analyze_text ("This is a test. It has many words.".toList) 1).total_words = 8 ∧
    (analyze_text ("This is a test. It has many words.".toList) 1).total_sentences = 2 := by
  have h : analyze_text ("This is a test. It has many words.".toList) 1 =
      ⟨["This is a test".toList, "It has many words".toList],
        [("a".toList, 1), ("has".toList, 1), ("is".toList, 1), ("it".toList, 1),
          ("many".toList, 1), ("test".toList, 1), ("this".toList, 1), ("words".toList, 1)],
        8, 8, 2⟩ := by decide
  rw [h]
  exact ⟨⟨by decide, by decide, by decide, by decide, by decide, by decide,
    by decide, by decide⟩, rfl, rfl⟩

/-- Claim C3: count conservation — for every input text and minimum word
length, `total_words` is the sum of the usage counts, `total_unique_words`
is the number of `unique_words` entries, and `total_sentences` is the
number of sentences. -/
theorem analyze_text_count_conservation (text : List Char) (min_word_length : Nat) :
    (analyze_text text min_word_length).total_words =
      ((analyze_text text min_word_length).unique_words.map Prod.snd).sum ∧
    (analyze_text text min_word_length).total_unique_words =
      (analyze_text text min_word_length).unique_words.length ∧
    (analyze_text text min_word_length).total_sentences =
      (analyze_text text min_word_length).sentences.length := by
  by_cases h : text = []
  · subst h; exact ⟨rfl, rfl, rfl⟩
  · rw [analyze_text, if_neg h]
    exact ⟨(cwc_sum _).symm, rfl, rfl⟩

/-- Claim C4: the frequency aggregator's output is strictly ascending by
word in lexicographic code-point order (hence has no duplicate keys),
every usage count is at least 1, and empty input yields empty output. -/
theorem calculate_word_counts_sorted (ws : List (List Char)) :
    List.Pairwise (fun p q : List Char × Nat => strLt p.1 q.1 = true)
      (calculate_word_counts ws) ∧
    (∀ p ∈ calculate_word_counts ws, 1 ≤ p.2) ∧
    calculate_word_counts ([] : List (List Char)) = [] := by
  refine ⟨?_, ?_, rfl⟩
  · by_cases h : ws = []
    · subst h; simp [calculate_word_counts]
    · rw [calculate_word_counts, if_neg h]
      have hsorted : List.Pairwise strLeP (List.insertionSort strLeP ws.dedup) :=
        List.sorted_insertionSort strLeP ws.dedup
      have hnodup : (List.insertionSort strLeP ws.dedup).Nodup :=
        ((List.perm_insertionSort strLeP ws.dedup).nodup_iff).mpr (List.nodup_dedup ws)
      have hstrict : List.Pairwise (fun a b : List Char => strLt a b = true)
          (List.insertionSort strLeP ws.dedup) :=
        (hsorted.and hnodup).imp (fun hab => hab.1.resolve_right hab.2)
      exact List.pairwise_map.mpr hstrict
  · intro p hp
    by_cases h : ws = []
    · subst h; simp [calculate_word_counts] at hp
    · rw [calculate_word_counts, if_neg h] at hp
      obtain ⟨w, hw, rfl⟩ := List.mem_map.mp hp
      have hmem : w ∈ ws := List.mem_dedup.mp ((List.mem_insertionSort strLeP).mp hw)
      exact (@List.count_pos_iff (List Char) instBEqOfDecidableEq inferInstance w ws).mpr hmem

/-- Claim C5: `analyze_text` on the empty string returns the zeroed result
immediately, and `extract_title` on empty input text returns `"Untitled"`
for every endpoint kind and every supplied context. -/
theorem analyze_empty_and_untitled :
    (∀ min_word_length : Nat,
      analyze_text [] min_word_length = ⟨[], [], 0, 0, 0⟩) ∧
    ∀ (endpoint_type : List Char) (sentences : List (List Char))
      (file_info : Option FileInfo) (filename custom_title : List Char),
      extract_title [] endpoint_type sentences file_info filename custom_title =
        "Untitled".toList :=
  ⟨fun _ => rfl, fun _ _ _ _ _ => rfl⟩

/-- Claim C6: the sentence-segmentation fallback is total and returns
exactly the pieces of splitting the input on runs of `.`, `!`, `?`,
each trimmed, with empty results dropped and order preserved; every
returned sentence is non-empty, trimmed and delimiter-free. -/
theorem extract_sentences_fallback_spec (t : List Char) :
    extract_sentences t = ((splitDelimRuns t).map pyStrip).filter (· ≠ []) ∧
    ∀ s ∈ extract_sentences t,
      s ≠ [] ∧ pyStrip s = s ∧ ∀ c ∈ s, isSentDelim c = false := by
  constructor
  · by_cases h : t = []
    · subst h; decide
    · rw [extract_sentences, if_neg h]
  · intro s hs
    rw [extract_sentences] at hs
    by_cases h : t = []
    · rw [if_pos h] at hs; cases hs
    · rw [if_neg h] at hs
      obtain ⟨hmap, hne⟩ := List.mem_filter.mp hs
      obtain ⟨p, hp, rfl⟩ := List.mem_map.mp hmap
      refine ⟨by simpa using hne, pyStrip_idem p, ?_⟩
      intro c hc
      exact splitDelimRuns_no_delim t p hp c ((pyStrip_sublist p).subset hc)

/-- Claim C7: the title truncation step maps a candidate longer than 100
characters to its first 97 characters followed by `"..."` (total length
100) and leaves candidates of length at most 100 unchanged. -/
theorem truncate100_spec (t : List Char) :
    (100 < t.length →
      truncate100 t = t.take 97 ++ "...".toList ∧ (truncate100 t).length = 100) ∧
    (t.length ≤ 100 → truncate100 t = t) := by
  constructor
  · intro h
    have he : truncate100 t = t.take 97 ++ "...".toList := by
      rw [truncate100, if_pos h]
    refine ⟨he, ?_⟩
    rw [he, List.length_append, List.length_take]
    have h3 : ("...".toList).length = 3 := rfl
    rw [h3]
    omega
  · intro h
    rw [truncate100, if_neg (by omega)]

/-- Witness for C7 at a 150-character candidate and a short candidate. -/
theorem truncate100_spec_witness :
    (truncate100 (List.replicate 150 'a') =
        (List.replicate 150 'a').take 97 ++ "...".toList ∧
      (truncate100 (List.replicate 150 'a')).length = 100) ∧
    truncate100 ("short".toList) = "short".toList :=
  ⟨(truncate100_spec (List.replicate 150 'a')).1 (by simp),
    (truncate100_spec ("short".toList)).2 (by decide)⟩

/-- Claim C8: for the subtitle endpoint with non-empty text and a
non-empty filename, `extract_title` returns the filename with its
extension removed (no truncation is applied). -/
theorem extract_title_subtitle_filename (text : List Char)
    (sentences : List (List Char)) (file_info : Option FileInfo)
    (filename custom_title : List Char)
    (htext : text ≠ []) (hfn : filename ≠ []) :
    extract_title text ("subtitle".toList) sentences file_info filename custom_title =
      splitextRoot filename := by
  rw [extract_title.eq_def, if_neg htext,
    if_neg (show ¬("subtitle".toList = "epub".toList) by decide)]
  dsimp only
  rw [if_neg (show ¬("subtitle".toList = "text".toList) by decide),
    if_pos (show ("subtitle".toList : List Char) = "subtitle".toList from rfl),
    if_pos hfn]

/-- Witness for C8: `extract_title` for the subtitle endpoint with
filename `"episode_01.srt"` returns `"episode_01"`. -/
theorem extract_title_subtitle_filename_witness :
    extract_title ("x".toList) ("subtitle".toList) [] none
      ("episode_01.srt".toList) [] = "episode_01".toList := by
  rw [extract_title_subtitle_filename ("x".toList) [] none
    ("episode_01.srt".toList) [] (by decide) (by decide)]
  decide

/-- Claim C9: whitespace normalization is idempotent:
`clean_text (clean_text s) = clean_text s` for every string `s`. -/
theorem clean_text_idempotent (s : List Char) :
    clean_text (clean_text s) = clean_text s := by
  by_cases h : s = []
  · subst h; rfl
  · have hs : clean_text s = joinSpace (pySplitWs s) := by rw [clean_text, if_neg h]
    cases hps : pySplitWs s with
    | nil => rw [hs, hps]; rfl
    | cons p ps =>
      have hall : ∀ q ∈ p :: ps, q ≠ [] ∧ ∀ c ∈ q, isSpaceCh c = false := by
        intro q hq
        exact pySplitWs_sound s q (by rw [hps]; exact hq)
      have hjne : joinSpace (p :: ps) ≠ [] := by
        have hp := hall p (List.mem_cons_self p ps)
        cases ps with
        | nil => exact hp.1
        | cons q qs => simp [joinSpace]
      rw [hs, hps, clean_text, if_neg hjne, pySplitWs_joinSpace (p :: ps) hall]

/-- Claim C10: the lightweight statistics agree with the full analysis on
the three shared counts for every input and minimum word length. -/
theorem get_text_statistics_agrees (text : List Char) (min_word_length : Nat) :
    (get_text_statistics text min_word_length).total_words =
      (analyze_text text min_word_length).total_words ∧
    (get_text_statistics text min_word_length).total_unique_words =
      (analyze_text text min_word_length).total_unique_words ∧
    (get_text_statistics text min_word_length).total_sentences =
      (analyze_text text min_word_length).total_sentences := by
  by_cases h : text = []
  · subst h; exact ⟨rfl, rfl, rfl⟩
  · rw [get_text_statistics, analyze_text, if_neg h, if_neg h]
    exact ⟨rfl, (cwc_length _).symm, rfl⟩

end WordFlow
